import Mathlib

/-!
Verification of the object-embedded i18n engine
(`src/npm-cp/i18n/lib/i18n.js`, `Engine.js`, the formatter and Loader modules).

JavaScript values are embedded as the mutual inductive `Value`:
plain objects become ordered field lists (JS own enumerable string-keyed
properties in insertion order), arrays become `ValueList`, scalars are
constructors, `vjson` models an object exposing a `toJSON` serialization
hook (its own properties other than `toJSON` are not modelled: such
objects in the test corpus, e.g. moments or `People`, never carry
`@translate`/`key` own properties), and `verror` models a JS `Error`
instance carrying its message (errors are neither plain objects nor
arrays nor `toJSON` carriers, so the walker treats them as leaves).

Numbers are embedded as `Int`: no claim depends on fractional values,
and every numeric operation performed by the code under verification
(plural-category selection, `typeof q === 'number'`, pass-through to
formatters) is faithful on integers.
-/

mutual
/-- Embedded JavaScript value (see module doc above). -/
inductive Value where
  | vnull
  | vundef
  | vbool (b : Bool)
  | vnum (n : Int)
  | vstr (s : String)
  | varr (xs : ValueList)
  | vobj (fs : FieldList)
  | vjson (c : Value)
  | verror (msg : String)
deriving DecidableEq, Repr

/-- Ordered JS array elements. -/
inductive ValueList where
  | nil
  | cons (hd : Value) (tl : ValueList)
deriving DecidableEq, Repr

/-- Ordered JS object fields (own enumerable properties, insertion order). -/
inductive FieldList where
  | nil
  | cons (k : String) (v : Value) (tl : FieldList)
deriving DecidableEq, Repr
end

/-- Property read `object[key]` (first binding wins; JS objects have
unique keys, so at most one binding exists for inputs that model real
JS objects). -/
def lookupField : FieldList → String → Option Value
  | .nil, _ => none
  | .cons k v t, key => if k = key then some v else lookupField t key

/-- Property write `object[key] = value`: overwrite an existing binding
in place, else append (JS insertion-order semantics). -/
def setField : FieldList → String → Value → FieldList
  | .nil, key, value => .cons key value .nil
  | .cons k v t, key, value =>
    if k = key then .cons k value t else .cons k v (setField t key value)

/-- Replace the value of the first binding of `key`, used to express the
post-call state of an outer node whose (aliased) inner object was
mutated by the engine. -/
def replaceFirst : FieldList → String → Value → FieldList
  | .nil, _, _ => .nil
  | .cons k v t, key, value =>
    if k = key then .cons k value t else .cons k v (replaceFirst t key value)

/-- Keys of an object, in order (`Object.keys`). -/
def fieldKeys : FieldList → List String
  | .nil => []
  | .cons k _ t => k :: fieldKeys t

/-- Every key of the object equals `key`. -/
def allKeysEq : FieldList → String → Bool
  | .nil, _ => true
  | .cons k _ t, key => k = key && allKeysEq t key

/-- Length of an array. -/
def lengthL : ValueList → Nat
  | .nil => 0
  | .cons _ t => 1 + lengthL t

/-- JSON-Schema draft-4 type `number` (tv4 `typeof`). -/
def isNumberV : Value → Bool
  | .vnum _ => true
  | _ => false

/-- JSON-Schema draft-4 type `string`. -/
def isStringV : Value → Bool
  | .vstr _ => true
  | _ => false

/-- JSON-Schema draft-4 type `object`: a non-array JS object. Plain
objects, serialization-hook objects and `Error` instances all have
`typeof === 'object'` and are not arrays. -/
def isMappingV : Value → Bool
  | .vobj _ => true
  | .vjson _ => true
  | .verror _ => true
  | _ => false

/-- The `@translate` marker key (`TRANSLATE_SYMBOL` in `i18n.js`). -/
def translateSymbol : String := "@translate"

/-- Modelled from the spec: the file `@translate.schema.json` required by
`i18n.js` is not present in the source tree; its exact content is
reproduced verbatim both in the `TRANSLATE_SCHEMA` doc comment of
`i18n.js` and in the repository README, and this definition transcribes
that schema's inner `@translate` object:
`required: ["key"]`, `key : string`, `quantity : number`,
`placeholders : object`, `fallback : string`.  Note the schema places
`additionalProperties: false` only at the OUTER level, so extra
properties inside the `@translate` object are unconstrained, and `key`
may be any string including the empty one.  `vjson`/`verror` objects
fail the `required: ["key"]` check because they carry no modelled own
properties. -/
def validTranslateInner : Value → Bool
  | .vobj fs =>
    (match lookupField fs "key" with
     | some k => isStringV k
     | none => false) &&
    (match lookupField fs "quantity" with
     | some q => isNumberV q
     | none => true) &&
    (match lookupField fs "placeholders" with
     | some p => isMappingV p
     | none => true) &&
    (match lookupField fs "fallback" with
     | some f => isStringV f
     | none => true)
  | _ => false

/-- Modelled from the spec: `_validateNode` of `i18n.js` runs
`tv4.validateResult(node, TRANSLATE_SCHEMA)` (the `tv4` library is a
dependency, not repository code).  For this concrete draft-4 schema tv4
validation means: the value is a non-array object, its only property is
`@translate` (`required: ["@translate"]` plus outer
`additionalProperties: false`), and that property's value satisfies
`validTranslateInner`.  A `vjson`/`verror` object fails `required`
because it carries no modelled own properties. -/
def validateNode : Value → Bool
  | .vobj fs =>
    allKeysEq fs translateSymbol &&
    (match lookupField fs translateSymbol with
     | some inner => validTranslateInner inner
     | none => false)
  | _ => false

/-- Catalog of templates: locale tag to a flat association of dotted key
to template string.  `Engine.addTranslations` hands nested template
trees to i18next's `addResourceBundle`; i18next addresses entries by
`(locale, dotted key path)`, which this flat map captures (a nested tree
and its dotted-path flattening are addressed identically, spec section
4.3). -/
abbrev Catalog := List (String × List (String × String))

/-- Template lookup for one `(locale, key)` pair. -/
def lookupCat (cat : Catalog) (locale key : String) : Option String :=
  match cat.find? (fun e => e.1 = locale) with
  | some e => (e.2.find? (fun kt => kt.1 = key)).map (fun kt => kt.2)
  | none => none

/-- Language part of a locale tag (`en-GB` gives `en`). -/
def baseLang (locale : String) : String :=
  String.mk (locale.data.takeWhile (fun c => c ≠ '-'))

/-- Modelled from the spec: the locale chain i18next consults for a
request locale — the full tag, its base language, then the default
locale `en` (spec sections 4.6 "Locale inheritance" and 4.8 step 1;
`Engine.getDefaultLocale` returns `'en'`). -/
def consultedLocales (locale : String) : List String :=
  ([locale, baseLang locale, "en"]).dedup

/-- Modelled from the spec: Arabic plural-category index used by the
i18next suffix scheme exercised by the test corpus
(`plural-dog_0` … `plural-dog_5`). -/
def arabicSuffix (n : Int) : String :=
  if n = 0 then "0"
  else if n = 1 then "1"
  else if n = 2 then "2"
  else if 3 ≤ n % 100 ∧ n % 100 ≤ 10 then "3"
  else if 11 ≤ n % 100 ∧ n % 100 ≤ 99 then "4"
  else "5"

/-- Modelled from the spec: plural key suffixes attempted before the
bare key, per language.  English-like languages use the bare key for
count 1 and `_plural` otherwise; Arabic uses the numeric category
suffix. -/
def pluralSuffixList (lang : String) (n : Int) : List String :=
  if lang = "ar" then ["_" ++ arabicSuffix n]
  else if n = 1 then []
  else ["_plural"]

/-- Modelled from the spec: `LookupWithPlural` for one locale — attempt
`<key>_<category>` then the bare key (spec section 4.3). -/
def lookupWithPlural (cat : Catalog) (l key : String) (count : Option Int) :
    Option String :=
  match count with
  | none => lookupCat cat l key
  | some n =>
    match (pluralSuffixList (baseLang l) n).findSome?
        (fun suf => lookupCat cat l (key ++ suf)) with
    | some t => some t
    | none => lookupCat cat l key

/-- First template hit over a locale list (request locale first). -/
def resolveTemplate (cat : Catalog) : List String → String → Option Int →
    Option String
  | [], _, _ => none
  | l :: ls, key, count =>
    match lookupWithPlural cat l key count with
    | some t => some t
    | none => resolveTemplate cat ls key count

/-- Modelled from the spec: `i18next.exists(key)` as called by
`Engine.t` (no count option): the bare key resolves in some consulted
locale. -/
def existsBare (cat : Catalog) (locale key : String) : Bool :=
  (consultedLocales locale).any (fun l => (lookupCat cat l key).isSome)

mutual
/-- JS string coercion as applied by i18next interpolation
(`makeString`): `null`/`undefined` become the empty string, scalars
their usual coercion, arrays join their elements with commas, objects
print as `[object Object]` (serialization-hook objects are abstracted
the same way), errors as `Error: <message>`. -/
def stringify : Value → String
  | .vnull => ""
  | .vundef => ""
  | .vbool b => if b then "true" else "false"
  | .vnum n => toString n
  | .vstr s => s
  | .varr xs => stringifyL xs
  | .vobj _ => "[object Object]"
  | .vjson _ => "[object Object]"
  | .verror msg => "Error: " ++ msg

/-- Array coercion: elements joined with commas. -/
def stringifyL : ValueList → String
  | .nil => ""
  | .cons h .nil => stringify h
  | .cons h t => stringify h ++ "," ++ stringifyL t
end

/-- Property read on a placeholder payload object (`{ value, timezone }`
and friends); non-objects have no properties. -/
def vget (v : Value) (key : String) : Option Value :=
  match v with
  | .vobj fs => lookupField fs key
  | _ => none

/-- Timezone actually used: the placeholder's `timezone` if truthy, else
the engine's (`getValidTimezone` in the formatter module; an empty
string is falsy in JS). -/
def effectiveTimezone (v : Value) (engineTz : Option String) : Option String :=
  match vget v "timezone" with
  | some (.vstr z) => if z = "" then engineTz else some z
  | _ => engineTz

/-- Modelled from the spec: the moment-js rendering inside
`localeDate`/`format` is a third-party dependency; it is abstracted as
an injective tag of its inputs (date value, locale, effective timezone,
format string).  All claims about date formatters concern only which
inputs reach the renderer, never the rendered text. -/
def localeDateTag (v : Value) (fmt locale : String) (engineTz : Option String) :
    String :=
  "moment(" ++ stringify ((vget v "value").getD .vundef) ++ ";" ++ locale ++
    ";" ++ (effectiveTimezone v engineTz).getD "local" ++ ").format(" ++
    fmt ++ ")"

/-- Formatter `date` (`formatDate`: long date, format `LL`). -/
def formatDate (v : Value) (locale : String) (engineTz : Option String) :
    Except String String :=
  .ok (localeDateTag v "LL" locale engineTz)

/-- Formatter `time` (`formatTime`: short time, format `LT`). -/
def formatTime (v : Value) (locale : String) (engineTz : Option String) :
    Except String String :=
  .ok (localeDateTag v "LT" locale engineTz)

/-- Formatter `datetime` (`formatDateAndTime`: format `LLLL`). -/
def formatDateAndTime (v : Value) (locale : String) (engineTz : Option String) :
    Except String String :=
  .ok (localeDateTag v "LLLL" locale engineTz)

/-- Canonical duration unit abbreviations (`_durationUnitsMap`). -/
def durationUnitsMap : List (String × String) :=
  [("year", "y"), ("years", "y"), ("month", "mo"), ("months", "mo"),
   ("week", "w"), ("weeks", "w"), ("day", "d"), ("days", "d"),
   ("hour", "h"), ("hours", "h"), ("minute", "m"), ("minutes", "m"),
   ("second", "s"), ("seconds", "s"),
   ("millisecond", "ms"), ("milliseconds", "ms")]

/-- Elementwise mapping of duration unit names through
`durationUnitsMap` (an unknown unit maps to `undefined`, rendered here
as `?`). -/
def durationUnitsL : ValueList → List String
  | .nil => []
  | .cons (.vstr u) t =>
    ((durationUnitsMap.find? (fun p => p.1 = u)).map (fun p => p.2)).getD "?"
      :: durationUnitsL t
  | .cons _ t => "?" :: durationUnitsL t

/-- Unit list of a duration payload (see `durationUnitsL`). -/
def durationUnits : Value → List String
  | .varr xs => durationUnitsL xs
  | _ => []

/-- Formatter `duration` (`formatDuration`): humanize-duration invoked
with `language = baseLang locale` (region suffix dropped), `largest`
from a truthy `precision`, `round` from a truthy `round`, `units` only
when non-empty.  The third-party rendering is abstracted as an injective
tag of the configuration actually passed. -/
def formatDuration (v : Value) (locale : String) : Except String String :=
  let value := stringify ((vget v "value").getD .vundef)
  let language := baseLang locale
  let largest := match vget v "precision" with
    | some (.vnum n) => if n = 0 then "" else ";largest=" ++ toString n
    | _ => ""
  let round := match vget v "round" with
    | some (.vbool true) => ";round"
    | _ => ""
  let units := match durationUnits ((vget v "units").getD .vundef) with
    | [] => ""
    | us => ";units=" ++ String.intercalate "," us
  .ok ("humanizeDuration(" ++ value ++ ";" ++ language ++ largest ++ round ++
    units ++ ")")

/-- Formatter `currency` (`formatCurrency`): `Intl.NumberFormat` with
`style: 'currency'` raises `Currency code is required when style is
currency` when no currency code is supplied (message pinned by the
repository's error-handling test; per spec scenario 6 a `null` code
raises the same way), and rejects non-string codes; with a string code
the third-party rendering is abstracted as an injective tag of locale,
code, precision and amount. -/
def formatCurrency (v : Value) (locale : String) : Except String String :=
  match vget v "currency" with
  | some (.vstr c) =>
    let precision := match vget v "precision" with
      | some (.vnum n) => ";digits=" ++ toString n
      | _ => ""
    .ok ("currency(" ++ locale ++ ";" ++ c ++ precision ++ ";" ++
      stringify ((vget v "value").getD .vundef) ++ ")")
  | some (.vnull) => .error "Currency code is required when style is currency"
  | some (.vundef) => .error "Currency code is required when style is currency"
  | none => .error "Currency code is required when style is currency"
  | some _ => .error "Invalid currency code"

/-- Formatter dispatch (`formatter` in the formatter module): a known
format name runs its formatter; an unknown one emits the placeholder's
raw value (stringified at the interpolation site). -/
def formatterFn (v : Value) (format locale : String)
    (engineTz : Option String) : Except String String :=
  if format = "date" then formatDate v locale engineTz
  else if format = "time" then formatTime v locale engineTz
  else if format = "datetime" then formatDateAndTime v locale engineTz
  else if format = "duration" then formatDuration v locale
  else if format = "currency" then formatCurrency v locale
  else .ok (stringify v)

/-- Opening interpolation brace (written numerically; `Char.ofNat 123`
is the character normally written as a left curly brace). -/
def lbrace : Char := Char.ofNat 123

/-- Closing interpolation brace (`Char.ofNat 125`). -/
def rbrace : Char := Char.ofNat 125

/-- Scan for the closing double brace of an interpolation reference;
returns the reference body and the remaining characters, or `none` when
the reference never closes (the i18next regexp then matches nothing and
the text stays literal). -/
def findClose : List Char → Option (List Char × List Char)
  | [] => none
  | c :: rest =>
    if c = rbrace then
      match rest with
      | r :: rest' =>
        if r = rbrace then some ([], rest')
        else (findClose rest).map (fun p => (c :: p.1, p.2))
      | [] => none
    else (findClose rest).map (fun p => (c :: p.1, p.2))

/-- Split an interpolation body at the first comma into the placeholder
name and the optional format name. -/
def splitComma : List Char → List Char × Option (List Char)
  | [] => ([], none)
  | c :: rest =>
    if c = ',' then ([], some rest)
    else
      let p := splitComma rest
      (c :: p.1, p.2)

/-- Trim surrounding spaces of a reference part. -/
def trimChars (cs : List Char) : List Char :=
  ((cs.dropWhile (fun c => c = ' ')).reverse.dropWhile (fun c => c = ' ')).reverse

/-- Modelled from the spec: one pass of the i18next interpolator over a
template (spec section 4.4), with the engine's `escapeValue: false` and
`format` hook from `Engine.init`.  Substitutes double-brace references:
a bare name is replaced by the placeholder's stringified value (missing
or nil becomes empty), a `name, format` pair runs the formatter
registry, and a formatter exception aborts interpolation with that
error (it propagates through `_engine.t` into `Engine.t`'s catch).  The
`fuel` argument is a recursion measure only; the wrapper supplies more
fuel than characters, and an exhausted scan emits the remaining text
literally.  Nested `$t(...)` re-resolution is not modelled (no claim
involves it). -/
def interpGo (ph : FieldList) (locale : String) (tz : Option String) :
    Nat → List Char → List Char → Except String (List Char)
  | 0, cs, acc => .ok (acc ++ cs)
  | _ + 1, [], acc => .ok acc
  | fuel + 1, c :: rest, acc =>
    if c = lbrace ∧ rest.head? = some lbrace then
      match findClose rest.tail with
      | none => .ok (acc ++ c :: rest)
      | some (body, rest') =>
        let name := String.mk (trimChars (splitComma body).1)
        match (splitComma body).2 with
        | none =>
          let value := (lookupField ph name).getD .vundef
          interpGo ph locale tz fuel rest' (acc ++ (stringify value).data)
        | some fmtCs =>
          let fmt := String.mk (trimChars fmtCs)
          match formatterFn ((lookupField ph name).getD .vundef) fmt locale tz
              with
          | .ok s => interpGo ph locale tz fuel rest' (acc ++ s.data)
          | .error e => .error e
    else
      interpGo ph locale tz fuel rest (acc ++ [c])

/-- Interpolate a template under given placeholders, locale and engine
timezone (see `interpGo`). -/
def interpolate (tpl : String) (ph : FieldList) (locale : String)
    (tz : Option String) : Except String String :=
  (interpGo ph locale tz (tpl.data.length + 1) tpl.data []).map String.mk

/-- Key string destructured by `Engine.t` (`const { key, ... } =
translate`); valid nodes always carry a string key. -/
def innerKeyStr (inner : FieldList) : String :=
  match lookupField inner "key" with
  | some (.vstr k) => k
  | _ => ""

/-- Placeholder object the engine interpolates with: the node's
`placeholders` (or a fresh empty object), with `count` set from a
numeric `quantity` (`if (typeof quantity === 'number')
placeholders.count = quantity` in `Engine.t`). -/
def effPlaceholders (inner : FieldList) : FieldList :=
  match lookupField inner "placeholders", lookupField inner "quantity" with
  | some (.vobj pf), some (.vnum n) => setField pf "count" (.vnum n)
  | some (.vobj pf), _ => pf
  | _, some (.vnum n) => .cons "count" (.vnum n) .nil
  | _, _ => .nil

/-- Count option read back by i18next plural selection
(`options.count`). -/
def effCount (eff : FieldList) : Option Int :=
  match lookupField eff "count" with
  | some (.vnum n) => some n
  | _ => none

/-- State of the inner `@translate` object after `Engine.t`'s
count-assignment: when `quantity` is a number and the node carries its
own plain `placeholders` object, `count` is written into that shared
object; otherwise the fresh default object absorbs the write and the
input is untouched. -/
def innerAfterCount (inner : FieldList) : FieldList :=
  match lookupField inner "quantity", lookupField inner "placeholders" with
  | some (.vnum n), some (.vobj pf) =>
    setField inner "placeholders" (.vobj (setField pf "count" (.vnum n)))
  | _, _ => inner

/-- Resolution of a key (or of the fallback handed to `_engine.t` as a
key) against the catalog: first template hit over the consulted locales
is interpolated; modelled from the spec, a key that resolves nowhere is
returned verbatim (spec sections 4.6 step 5 and 7 "Missing-key"). -/
def resolveOrKey (cat : Catalog) (locale : String) (tz : Option String)
    (key : String) (eff : FieldList) : Except String String :=
  match resolveTemplate cat (consultedLocales locale) key (effCount eff) with
  | some tpl => interpolate tpl eff locale tz
  | none => .ok key

/-- Body of the `try` block of `Engine.t`: when the bare key exists
nowhere and a truthy `fallback` is present, interpolate the fallback
(`_engine.t(fallback, placeholders)`); otherwise resolve and
interpolate the key (`_engine.t(key, placeholders)`).  An exception is
a formatter error surfacing through interpolation. -/
def engineAttempt (cat : Catalog) (locale : String) (tz : Option String)
    (inner : FieldList) : Except String String :=
  let key := innerKeyStr inner
  let eff := effPlaceholders inner
  match lookupField inner "fallback" with
  | some (.vstr fb) =>
    if fb ≠ "" ∧ existsBare cat locale key = false then
      interpolate fb eff locale tz
    else resolveOrKey cat locale tz key eff
  | _ => resolveOrKey cat locale tz key eff

/-- Log line emitted by `Engine.t`'s catch
(`self.logger.error(error, translate, '[i18n.Engine#t] Translation
error')`). -/
def engineErrLog (e : String) : String :=
  "[i18n.Engine#t] Translation error: " ++ e

/-- Result of resolving one translation node. -/
structure TOut where
  res : Value
  post : FieldList
  logs : List String
deriving DecidableEq, Repr

/-- Resolution of one valid node's inner object by `Engine.t` (the
generator returned for the node, run after the loader step): on success
the translated string; on a formatter error the error is logged, an
`error` property is written onto the (shared) inner object, and that
object is returned.  `post` is the state of the input's inner object
after the call. -/
def engineT (cat : Catalog) (locale : String) (tz : Option String)
    (inner : FieldList) : TOut :=
  let inner1 := innerAfterCount inner
  match engineAttempt cat locale tz inner with
  | .ok s => ⟨.vstr s, inner1, []⟩
  | .error e =>
    let inner2 := setField inner1 "error" (.verror e)
    ⟨.vobj inner2, inner2, [engineErrLog e]⟩

/-- Result of walking a value: the (pending-resolved) output, the state
of the input value after the whole `translate` call, the collected
template keys and the error-log lines. -/
structure WalkOut where
  res : Value
  post : Value
  keys : List String
  logs : List String
deriving DecidableEq, Repr

/-- Walk result for an array. -/
structure WalkOutL where
  res : ValueList
  post : ValueList
  keys : List String
  logs : List String
deriving DecidableEq, Repr

/-- Walk result for an object's fields. -/
structure WalkOutF where
  res : FieldList
  post : FieldList
  keys : List String
  logs : List String
deriving DecidableEq, Repr

mutual
/-- The recursive tree walker `_walk` of `i18n.js`, fused with the
resolution phase: a valid `@translate` node resolves through
`Engine.t` and contributes its key; a plain object or an array is
shallow-copied and walked field by field (`_walkArrayOrObject`), so the
input's containers are never mutated; a serialization-hook object is
replaced by the walk of its canonical form (`object.toJSON()` produces
fresh values, so the input object is unchanged); anything else is a
leaf returned as is.  In `translate`, resolution generators are awaited
after `_loader.load`; with no remote configured (the default — `load`
returns at once when `this.redis` is unset) the catalog at resolution
time equals the catalog at walk time, so the two phases fuse into this
single pass over one `cat`. -/
def walkV (cat : Catalog) (locale : String) (tz : Option String) :
    Value → WalkOut
  | .vobj fields =>
    if validateNode (.vobj fields) then
      match lookupField fields translateSymbol with
      | some (.vobj inner) =>
        let t := engineT cat locale tz inner
        { res := t.res,
          post := .vobj (replaceFirst fields translateSymbol (.vobj t.post)),
          keys := [innerKeyStr inner],
          logs := t.logs }
      | _ =>
        let o := walkF cat locale tz fields
        ⟨.vobj o.res, .vobj o.post, o.keys, o.logs⟩
    else
      let o := walkF cat locale tz fields
      ⟨.vobj o.res, .vobj o.post, o.keys, o.logs⟩
  | .varr xs =>
    let o := walkL cat locale tz xs
    ⟨.varr o.res, .varr o.post, o.keys, o.logs⟩
  | .vjson c =>
    let o := walkV cat locale tz c
    ⟨o.res, .vjson c, o.keys, o.logs⟩
  | v => ⟨v, v, [], []⟩

/-- Elementwise walk of an array (`_walkArrayOrObject` on a spread
copy). -/
def walkL (cat : Catalog) (locale : String) (tz : Option String) :
    ValueList → WalkOutL
  | .nil => ⟨.nil, .nil, [], []⟩
  | .cons h t =>
    let o := walkV cat locale tz h
    let r := walkL cat locale tz t
    ⟨.cons o.res r.res, .cons o.post r.post, o.keys ++ r.keys,
      o.logs ++ r.logs⟩

/-- Fieldwise walk of an object (`_walkArrayOrObject` on an
`Object.assign` copy; key order preserved). -/
def walkF (cat : Catalog) (locale : String) (tz : Option String) :
    FieldList → WalkOutF
  | .nil => ⟨.nil, .nil, [], []⟩
  | .cons k v t =>
    let o := walkV cat locale tz v
    let r := walkF cat locale tz t
    ⟨.cons k o.res r.res, .cons k o.post r.post, o.keys ++ r.keys,
      o.logs ++ r.logs⟩
end

/-- The public `translate(object, locale, timezone)` value: clone the
engine, bind locale and timezone, walk, load (a no-op on the catalog
when no remote is configured), resolve.  `cat` is the shared engine's
catalog. -/
def translateF (cat : Catalog) (locale : String) (tz : Option String)
    (v : Value) : Value :=
  (walkV cat locale tz v).res

/-- State of the input argument after a `translate` call. -/
def translatePost (cat : Catalog) (locale : String) (tz : Option String)
    (v : Value) : Value :=
  (walkV cat locale tz v).post

/-- Error-log lines emitted during a `translate` call. -/
def translateLogs (cat : Catalog) (locale : String) (tz : Option String)
    (v : Value) : List String :=
  (walkV cat locale tz v).logs

mutual
/-- No subtree is a valid translation node. -/
def noTransNode : Value → Bool
  | .vobj fs => !validateNode (.vobj fs) && noTransNodeF fs
  | .varr xs => noTransNodeL xs
  | .vjson c => noTransNode c
  | _ => true

/-- Elementwise `noTransNode`. -/
def noTransNodeL : ValueList → Bool
  | .nil => true
  | .cons h t => noTransNode h && noTransNodeL t

/-- Fieldwise `noTransNode`. -/
def noTransNodeF : FieldList → Bool
  | .nil => true
  | .cons _ v t => noTransNode v && noTransNodeF t
end

mutual
/-- The value is built from scalars, errors, sequences and mappings
only — no serialization-hook (`toJSON`) objects, which the walker
replaces by their canonical form. -/
def plainOnly : Value → Bool
  | .vobj fs => plainOnlyF fs
  | .varr xs => plainOnlyL xs
  | .vjson _ => false
  | _ => true

/-- Elementwise `plainOnly`. -/
def plainOnlyL : ValueList → Bool
  | .nil => true
  | .cons h t => plainOnly h && plainOnlyL t

/-- Fieldwise `plainOnly`. -/
def plainOnlyF : FieldList → Bool
  | .nil => true
  | .cons _ v t => plainOnly v && plainOnlyF t
end

/-- The node carries both a numeric `quantity` and its own plain
`placeholders` object, so `Engine.t`'s `placeholders.count = quantity`
writes into input-owned state. -/
def countMutates (inner : FieldList) : Bool :=
  match lookupField inner "quantity", lookupField inner "placeholders" with
  | some (.vnum _), some (.vobj _) => true
  | _, _ => false

/-- The inner object of a valid node triggers neither of `Engine.t`'s
input mutations: no `count` write into a shared `placeholders` object,
and no formatter error (so no `error` write). -/
def innerQuiet (cat : Catalog) (locale : String) (tz : Option String)
    (inner : FieldList) : Bool :=
  !countMutates inner && (engineAttempt cat locale tz inner).isOk

mutual
/-- Every valid translation node in the value is `innerQuiet`
(serialization-hook subtrees are exempt: the walker only mutates fresh
values produced by `toJSON`, never the input object itself). -/
def quietTree (cat : Catalog) (locale : String) (tz : Option String) :
    Value → Bool
  | .vobj fs =>
    if validateNode (.vobj fs) then
      match lookupField fs translateSymbol with
      | some (.vobj inner) => innerQuiet cat locale tz inner
      | _ => false
    else quietTreeF cat locale tz fs
  | .varr xs => quietTreeL cat locale tz xs
  | _ => true

/-- Elementwise `quietTree`. -/
def quietTreeL (cat : Catalog) (locale : String) (tz : Option String) :
    ValueList → Bool
  | .nil => true
  | .cons h t => quietTree cat locale tz h && quietTreeL cat locale tz t

/-- Fieldwise `quietTree`. -/
def quietTreeF (cat : Catalog) (locale : String) (tz : Option String) :
    FieldList → Bool
  | .nil => true
  | .cons _ v t => quietTree cat locale tz v && quietTreeF cat locale tz t
end

/-- The `_config` object an `Engine` holds by reference
(`this._config = config` in the constructor). -/
structure I18nConfig where
  locale : Option String := none
  timezone : Option String := none
deriving DecidableEq, Repr

/-- Heap of live `_config` objects, addressed by reference index. -/
abbrev ConfigHeap := List I18nConfig

/-- Runtime state of one `Engine` instance: a reference to its
`_config` object, its own i18next instance's `language`, and its
`_logger` reference. -/
structure EngineObj where
  configRef : Nat
  language : Option String := none
  loggerRef : Nat := 0
deriving DecidableEq, Repr

/-- `Engine.clone`: `new Engine(this._config)` stores the SAME config
object (the constructor keeps the reference), `cloneInstance()` yields
a fresh i18next instance inheriting the current language, and the
logger reference is copied (or a logger clone taken — a distinct
reference either way once the clone's logger is reassigned). -/
def engineClone (e : EngineObj) : EngineObj :=
  { configRef := e.configRef, language := e.language, loggerRef := e.loggerRef }

/-- The `locale` setter: `this._config.locale = this._engine.language =
locale` — writes the shared config object and the instance's own
language. -/
def engineSetLocale (h : ConfigHeap) (e : EngineObj) (l : String) :
    ConfigHeap × EngineObj :=
  (h.set e.configRef { h.getD e.configRef {} with locale := some l },
   { e with language := some l })

/-- The `timezone` setter: `this._config.timezone = timezone` — writes
only the shared config object. -/
def engineSetTimezone (h : ConfigHeap) (e : EngineObj) (tz : Option String) :
    ConfigHeap × EngineObj :=
  (h.set e.configRef { h.getD e.configRef {} with timezone := tz }, e)

/-- The `logger` setter: `this._logger = logger` — instance-local. -/
def engineSetLogger (e : EngineObj) (lg : Nat) : EngineObj :=
  { e with loggerRef := lg }

/-- The `locale` getter: `return this._engine.language`. -/
def engineGetLocale (e : EngineObj) : Option String :=
  e.language

/-- The `timezone` getter: `return this._config.timezone` — reads the
shared config object. -/
def engineGetTimezone (h : ConfigHeap) (e : EngineObj) : Option String :=
  (h.getD e.configRef {}).timezone

/-- The `logger` getter: `return this._logger`. -/
def engineGetLogger (e : EngineObj) : Nat :=
  e.loggerRef

/-- The loader's LRU cache, key to a locale-to-template object.  The
bound (`max: 500`) and TTL (`maxAge: 1 hour`) of `lru-cache` are not
modelled: no claim exercises eviction or expiry, and all claims range
over far fewer than 500 keys with no time passing. -/
abbrev LruCache := List (String × List (String × String))

/-- Association update, overwrite-or-append (JS property assignment on
a string-valued object). -/
def assocSet (m : List (String × String)) (k v : String) :
    List (String × String) :=
  match m.find? (fun p => p.1 = k) with
  | some _ => m.map (fun p => if p.1 = k then (k, v) else p)
  | none => m ++ [(k, v)]

/-- Association lookup. -/
def assocGet (m : List (String × String)) (k : String) : Option String :=
  (m.find? (fun p => p.1 = k)).map (fun p => p.2)

/-- `Object.assign(value, translations)` on string-valued objects:
every binding of `translations` overwrites or extends `value`. -/
def objAssign (value translations : List (String × String)) :
    List (String × String) :=
  translations.foldl (fun acc p => assocSet acc p.1 p.2) value

/-- `Loader.getItemFromCache(key, ...locales)`: the cached
locale-to-template object for `key` (or an empty one), filtered by
`_.pick` when a locale list is given — the picked entries follow the
locale-list order and keep only locales actually present. -/
def getItemFromCache (cache : LruCache) (key : String)
    (locales : List String) : List (String × String) :=
  let value := ((cache.find? (fun p => p.1 = key)).map (fun p => p.2)).getD []
  if locales = [] then value
  else locales.filterMap (fun l => (assocGet value l).map (fun t => (l, t)))

/-- `Loader.setItemToCache(key, translations)`: read the unfiltered
entry, `Object.assign` the new locales over it, and store it back
(merge-on-write). -/
def setItemToCache (cache : LruCache) (key : String)
    (translations : List (String × String)) : LruCache :=
  let value := getItemFromCache cache key []
  match cache.find? (fun p => p.1 = key) with
  | some _ =>
    cache.map (fun p => if p.1 = key then (key, objAssign value translations)
      else p)
  | none => cache ++ [(key, objAssign value translations)]

/-- Locale-to-(key-to-template) mapping assembled by the loader. -/
abbrev TransMap := List (String × List (String × String))

/-- `_.set(translations, locale + '.' + key, template)`: path write
creating the locale level on demand.  (Lodash splits the whole path on
dots; keys themselves containing dots would nest further, exactly as
the engine's nested catalog addressing expects — the flat map here is
its dotted-path reading.) -/
def transSet (m : TransMap) (locale key tpl : String) : TransMap :=
  match m.find? (fun p => p.1 = locale) with
  | some e =>
    m.map (fun p => if p.1 = locale then (locale, assocSet e.2 key tpl) else p)
  | none => m ++ [(locale, [(key, tpl)])]

/-- Top-level `Object.assign(translations, reduceResult)` used by
`loadFromCache`: each locale entry of the right object REPLACES the
accumulated entry for that locale wholesale (a shallow assign, not a
deep merge). -/
def transAssign (m fresh : TransMap) : TransMap :=
  fresh.foldl (fun acc p =>
    match acc.find? (fun q => q.1 = p.1) with
    | some _ => acc.map (fun q => if q.1 = p.1 then p else q)
    | none => acc ++ [p]) m

/-- `Loader.loadFromCache(engine, keys)`: for each key in order, a
non-empty filtered cache entry contributes (via a fresh
locale-to-key-to-template object shallow-assigned over the
accumulator), otherwise the key joins `unknown`. -/
def loadFromCache (cache : LruCache) (locales : List String)
    (keys : List String) : TransMap × List String :=
  keys.foldl (fun acc key =>
    let t := getItemFromCache cache key locales
    if t = [] then (acc.1, acc.2 ++ [key])
    else
      (transAssign acc.1
        (t.foldl (fun m lt => transSet m lt.1 key lt.2) []), acc.2))
    ([], [])

/-- The batched remote capability: one `hmget(key, ...locales)` command
per element, answered positionally (`multi.exec`), or a connection
error. -/
abbrev RemoteFn := List (String × List String) →
  Except String (List (List (Option String)))

/-- Result of a `Loader.load` call. -/
structure LoadResult where
  translations : TransMap
  cache : LruCache
  logs : List String
deriving Repr

/-- Warning line of the loader's catch
(`this.logger.warn(error, '[Loader] Failed to load translations from
Redis')`). -/
def loaderWarnMsg : String :=
  "[Loader] Failed to load translations from Redis"

/-- Reformatting loop of `Loader.load`: `for (const [i, key] of
keys.entries())` zipped with `for (const [j, locale] of
locales.entries())` — note the iteration is over ALL requested `keys`,
although the batch `res` was issued for the `unknown` keys only.  A
truthy template (`_.get(res, i + '.' + j)`, absent positions read as
`undefined`) is written through to the cache (the `add` event runs
`setItemToCache` synchronously) and into the result mapping. -/
def loadZip (res : List (List (Option String))) (keys locales : List String)
    (trans : TransMap) (cache : LruCache) : TransMap × LruCache :=
  (keys.enum.foldl (fun acc ki =>
    locales.enum.foldl (fun acc2 lj =>
      match (res.getD ki.1 []).getD lj.1 none with
      | some tpl =>
        if tpl = "" then acc2
        else
          (transSet acc2.1 lj.2 ki.2 tpl,
           setItemToCache acc2.2 ki.2 [(lj.2, tpl)])
      | none => acc2) acc) (trans, cache))

/-- `Loader.load(engine, keys)`: immediately the empty mapping when no
redis client is configured; otherwise cache-first assembly, one batched
`hmget` per unknown key, the reformatting loop, and on any error a
warning plus whatever was assembled so far.  The final
`engine.addTranslations` walk feeds the returned mapping into the
catalog and is not part of this state. -/
def loaderLoad (remote : Option RemoteFn) (cache : LruCache)
    (locales : List String) (keys : List String) : LoadResult :=
  match remote with
  | none => ⟨[], cache, []⟩
  | some r =>
    let fc := loadFromCache cache locales keys
    if fc.2 = [] then ⟨fc.1, cache, []⟩
    else
      match r (fc.2.map (fun k => (k, locales))) with
      | .error _ => ⟨fc.1, cache, [loaderWarnMsg]⟩
      | .ok res =>
        let z := loadZip res keys locales fc.1 cache
        ⟨z.1, z.2, []⟩

/-- Canonical wrapper building a translation node from inner fields. -/
def mkNode (fs : FieldList) : Value :=
  .vobj (.cons translateSymbol (.vobj fs) .nil)

/-- Every key of the inner object is one of the four schema-declared
properties. -/
def allowedInnerKeys : FieldList → Bool
  | .nil => true
  | .cons k _ t =>
    (k = "key" || k = "quantity" || k = "placeholders" || k = "fallback") &&
      allowedInnerKeys t

/-- The node validator exactly as the CLAIM describes it: one top-level
key `@translate`, a non-empty string `key`, every other inner property
one of `quantity` (number), `placeholders` (mapping), `fallback`
(string), and no extra properties at either level. -/
def validatorClaimed (v : Value) : Bool :=
  match v with
  | .vobj (.cons k inner .nil) =>
    k = translateSymbol &&
    (match inner with
     | .vobj ifs =>
       (match lookupField ifs "key" with
        | some (.vstr s) => s ≠ ""
        | _ => false) &&
       (match lookupField ifs "quantity" with
        | some q => isNumberV q
        | none => true) &&
       (match lookupField ifs "placeholders" with
        | some p => isMappingV p
        | none => true) &&
       (match lookupField ifs "fallback" with
        | some f => isStringV f
        | none => true) &&
       allowedInnerKeys ifs
     | _ => false)
  | _ => false

/-- What the implemented validator accepts, stated in the quantified
vocabulary of the spec: a mapping whose every top-level key is
`@translate`, carrying a mapping that has a string `key` (possibly
empty), a numeric `quantity` if any, a mapping `placeholders` if any, a
string `fallback` if any — with extra inner properties left
unconstrained. -/
def validatorAmendedSpec (v : Value) : Prop :=
  ∃ fs, v = .vobj fs
    ∧ (∀ k ∈ fieldKeys fs, k = translateSymbol)
    ∧ ∃ inner, lookupField fs translateSymbol = some (.vobj inner)
      ∧ (∃ s, lookupField inner "key" = some (.vstr s))
      ∧ (∀ q, lookupField inner "quantity" = some q → ∃ n, q = .vnum n)
      ∧ (∀ p, lookupField inner "placeholders" = some p → isMappingV p = true)
      ∧ (∀ f, lookupField inner "fallback" = some f → ∃ s, f = .vstr s)

/-- Error message raised by `Intl.NumberFormat` without a currency
code, as pinned by the repository's error-handling test. -/
def currencyRequiredMsg : String :=
  "Currency code is required when style is currency"

/-- Node whose numeric `quantity` makes `Engine.t` write `count` into
the input's own `placeholders` object (C2 counterexample input). -/
def c2ex : Value :=
  mkNode (.cons "key" (.vstr "plural-dog") (.cons "quantity" (.vnum 2)
    (.cons "placeholders" (.vobj (.cons "dog" (.vstr "Rex") .nil)) .nil)))

/-- Node with an extra property inside the `@translate` object (C4
counterexample input). -/
def c4ex : Value :=
  mkNode (.cons "key" (.vstr "howdy") (.cons "extra" (.vnum 1) .nil))

/-- Node whose `key` is the empty string (C4 counterexample input). -/
def c4exEmptyKey : Value :=
  mkNode (.cons "key" (.vstr "") .nil)

/-- Inner object of a node whose currency placeholder has a nil
currency code (C6 input). -/
def c6inner : FieldList :=
  .cons "key" (.vstr "format-price")
    (.cons "fallback" (.vstr "Le prix est de \x7b\x7bamount, currency\x7d\x7d")
      (.cons "placeholders"
        (.vobj (.cons "amount"
          (.vobj (.cons "value" (.vnum 12) (.cons "currency" .vnull .nil)))
          .nil)) .nil))

/-- Currency node used against C6 (spec scenario 6). -/
def c6ex : Value :=
  mkNode c6inner

/-- Fields of the value `translate` actually returns at `c6ex`'s
position: the inner `@translate` content (no `@translate` wrapper)
augmented with the error. -/
def c6post : FieldList :=
  .cons "key" (.vstr "format-price")
    (.cons "fallback" (.vstr "Le prix est de \x7b\x7bamount, currency\x7d\x7d")
      (.cons "placeholders"
        (.vobj (.cons "amount"
          (.vobj (.cons "value" (.vnum 12) (.cons "currency" .vnull .nil)))
          .nil))
        (.cons "error" (.verror currencyRequiredMsg) .nil)))

/-- Node whose `key` field is itself a translation node: invalid as a
whole (the key is not a string), so the walker recurses into it and
resolution REVEALS a valid node in the output (C10 counterexample
input). -/
def c10ex : Value :=
  mkNode (.cons "key" (mkNode (.cons "key" (.vstr "x") .nil)) .nil)

/-- Cache holding a template for key `a` (C7/C8 fixture). -/
def cacheAB : LruCache :=
  [("a", [("en", "TA")])]

/-- Remote answering the expected batch for the single unknown key `b`
with template `TB` (C8 fixture). -/
def remoteB : RemoteFn :=
  fun req => if req = [("b", ["en"])] then .ok [[some "TB"]]
    else .error "unexpected batch"

/-- Remote that fails every batch (C7 witness fixture). -/
def remoteDown : RemoteFn :=
  fun _ => .error "ECONNREFUSED"

mutual
/-- Walking a serialization-hook-free value with no valid translation
node anywhere is the identity: same output, untouched input, no keys,
no logs. -/
theorem walkV_id (cat : Catalog) (locale : String) (tz : Option String) :
    ∀ v : Value, plainOnly v = true → noTransNode v = true →
      walkV cat locale tz v = ⟨v, v, [], []⟩
  | .vnull, _, _ => rfl
  | .vundef, _, _ => rfl
  | .vbool _, _, _ => rfl
  | .vnum _, _, _ => rfl
  | .vstr _, _, _ => rfl
  | .verror _, _, _ => rfl
  | .vjson _, hp, _ => by simp [plainOnly] at hp
  | .varr xs, hp, hn => by
    have h := walkL_id cat locale tz xs (by simpa [plainOnly] using hp)
      (by simpa [noTransNode] using hn)
    simp [walkV, h]
  | .vobj fs, hp, hn => by
    rw [noTransNode] at hn
    rcases Bool.and_eq_true_iff.mp hn with ⟨hv, hf⟩
    have hval : validateNode (.vobj fs) = false := by
      simpa using hv
    have h := walkF_id cat locale tz fs (by simpa [plainOnly] using hp) hf
    simp [walkV, hval, h]

/-- Elementwise version of `walkV_id`. -/
theorem walkL_id (cat : Catalog) (locale : String) (tz : Option String) :
    ∀ xs : ValueList, plainOnlyL xs = true → noTransNodeL xs = true →
      walkL cat locale tz xs = ⟨xs, xs, [], []⟩
  | .nil, _, _ => rfl
  | .cons h t, hp, hn => by
    rw [plainOnlyL] at hp
    rw [noTransNodeL] at hn
    rcases Bool.and_eq_true_iff.mp hp with ⟨hp1, hp2⟩
    rcases Bool.and_eq_true_iff.mp hn with ⟨hn1, hn2⟩
    have e1 := walkV_id cat locale tz h hp1 hn1
    have e2 := walkL_id cat locale tz t hp2 hn2
    simp [walkL, e1, e2]

/-- Fieldwise version of `walkV_id`. -/
theorem walkF_id (cat : Catalog) (locale : String) (tz : Option String) :
    ∀ fs : FieldList, plainOnlyF fs = true → noTransNodeF fs = true →
      walkF cat locale tz fs = ⟨fs, fs, [], []⟩
  | .nil, _, _ => rfl
  | .cons k v t, hp, hn => by
    rw [plainOnlyF] at hp
    rw [noTransNodeF] at hn
    rcases Bool.and_eq_true_iff.mp hp with ⟨hp1, hp2⟩
    rcases Bool.and_eq_true_iff.mp hn with ⟨hn1, hn2⟩
    have e1 := walkV_id cat locale tz v hp1 hn1
    have e2 := walkF_id cat locale tz t hp2 hn2
    simp [walkF, e1, e2]
end

/-- Walking an object preserves its key list (only field values are
rewritten). -/
theorem walkF_fieldKeys (cat : Catalog) (locale : String)
    (tz : Option String) :
    ∀ fs : FieldList, fieldKeys (walkF cat locale tz fs).res = fieldKeys fs
  | .nil => rfl
  | .cons k v t => by
    simp [walkF, fieldKeys, walkF_fieldKeys cat locale tz t]

/-- Walking an array preserves its length. -/
theorem walkL_lengthL (cat : Catalog) (locale : String)
    (tz : Option String) :
    ∀ xs : ValueList, lengthL (walkL cat locale tz xs).res = lengthL xs
  | .nil => rfl
  | .cons h t => by
    simp [walkL, lengthL, walkL_lengthL cat locale tz t]

/-- C1.  `translate` is the identity on every serialization-hook-free
value containing no valid translation node; scalars (`null`, the
`undefined` equivalent, booleans, numbers, strings) come back
unchanged; a non-node mapping is walked fieldwise with its key list
preserved, and an array elementwise with its length preserved — so
every non-translation subtree keeps its key set, sequence order and
scalar values. -/
theorem translate_structure_preservation :
    (∀ (cat : Catalog) (locale : String) (tz : Option String) (v : Value),
      plainOnly v = true → noTransNode v = true →
      translateF cat locale tz v = v)
    ∧ (∀ (cat : Catalog) (locale : String) (tz : Option String),
      translateF cat locale tz .vnull = .vnull
      ∧ translateF cat locale tz .vundef = .vundef
      ∧ (∀ b, translateF cat locale tz (.vbool b) = .vbool b)
      ∧ (∀ n, translateF cat locale tz (.vnum n) = .vnum n)
      ∧ (∀ s, translateF cat locale tz (.vstr s) = .vstr s))
    ∧ (∀ (cat : Catalog) (locale : String) (tz : Option String)
      (fs : FieldList), validateNode (.vobj fs) = false →
      translateF cat locale tz (.vobj fs) = .vobj (walkF cat locale tz fs).res
      ∧ fieldKeys (walkF cat locale tz fs).res = fieldKeys fs)
    ∧ (∀ (cat : Catalog) (locale : String) (tz : Option String)
      (xs : ValueList),
      translateF cat locale tz (.varr xs) = .varr (walkL cat locale tz xs).res
      ∧ lengthL (walkL cat locale tz xs).res = lengthL xs) := by
  refine ⟨?_, ?_, ?_, ?_⟩
  · intro cat locale tz v hp hn
    simp [translateF, walkV_id cat locale tz v hp hn]
  · intro cat locale tz
    exact ⟨rfl, rfl, fun _ => rfl, fun _ => rfl, fun _ => rfl⟩
  · intro cat locale tz fs hval
    exact ⟨by simp [translateF, walkV, hval], walkF_fieldKeys cat locale tz fs⟩
  · intro cat locale tz xs
    exact ⟨by simp [translateF, walkV], walkL_lengthL cat locale tz xs⟩

/-- Witness for C1 at a concrete node-free mapping. -/
theorem translate_structure_preservation_witness :
    plainOnly (.vobj (.cons "a" (.vnum 1) .nil)) = true
    ∧ noTransNode (.vobj (.cons "a" (.vnum 1) .nil)) = true
    ∧ translateF [] "en" none (.vobj (.cons "a" (.vnum 1) .nil)) =
      .vobj (.cons "a" (.vnum 1) .nil) :=
  ⟨by decide, by decide,
   translate_structure_preservation.1 [] "en" none _ (by decide) (by decide)⟩

/-- Writing back the value a key already holds leaves the object
unchanged. -/
theorem replaceFirst_self :
    ∀ (fs : FieldList) (k : String) (v : Value),
      lookupField fs k = some v → replaceFirst fs k v = fs
  | .nil, _, _, h => by simp [lookupField] at h
  | .cons k' v' t, k, v, h => by
    by_cases hk : k' = k
    · subst hk
      rw [lookupField, if_pos rfl] at h
      rw [replaceFirst, if_pos rfl]
      injection h with h
      rw [h]
    · rw [lookupField, if_neg hk] at h
      rw [replaceFirst, if_neg hk, replaceFirst_self t k v h]

/-- A node that does not mutate its placeholders keeps its inner object
through the count-assignment step. -/
theorem innerAfterCount_eq (inner : FieldList)
    (h : countMutates inner = false) : innerAfterCount inner = inner := by
  unfold countMutates at h
  unfold innerAfterCount
  split
  · next hq hp => rw [hq, hp] at h; simp at h
  · rfl

/-- A quiet node resolves without touching its inner object and without
logging. -/
theorem engineT_quiet (cat : Catalog) (locale : String) (tz : Option String)
    (inner : FieldList) (h : innerQuiet cat locale tz inner = true) :
    (engineT cat locale tz inner).post = inner
    ∧ (engineT cat locale tz inner).logs = [] := by
  rw [innerQuiet] at h
  rcases Bool.and_eq_true_iff.mp h with ⟨h1, h2⟩
  have hc : countMutates inner = false := by simpa using h1
  have hac := innerAfterCount_eq inner hc
  unfold engineT
  rcases hok : engineAttempt cat locale tz inner with s | e
  · rw [hok] at h2; simp [Except.isOk, Except.toBool] at h2
  · simp [hok, hac]

mutual
/-- Walking a tree whose valid nodes are all quiet leaves the input in
its pre-call state. -/
theorem walkV_post (cat : Catalog) (locale : String) (tz : Option String) :
    ∀ v : Value, quietTree cat locale tz v = true →
      (walkV cat locale tz v).post = v
  | .vnull, _ => rfl
  | .vundef, _ => rfl
  | .vbool _, _ => rfl
  | .vnum _, _ => rfl
  | .vstr _, _ => rfl
  | .verror _, _ => rfl
  | .vjson _, _ => by simp [walkV]
  | .varr xs, h => by
    rw [quietTree] at h
    simp [walkV, walkL_post cat locale tz xs h]
  | .vobj fs, h => by
    by_cases hval : validateNode (.vobj fs) = true
    · rw [quietTree, if_pos hval] at h
      rcases hlk : lookupField fs translateSymbol with _ | inner
      · rw [hlk] at h; simp at h
      · rw [hlk] at h
        cases inner with
        | vobj ifs =>
          have hq := engineT_quiet cat locale tz ifs h
          simp [walkV, hval, hlk, hq.1, replaceFirst_self fs translateSymbol
            (.vobj ifs) hlk]
        | vnull => simp at h
        | vundef => simp at h
        | vbool b => simp at h
        | vnum n => simp at h
        | vstr s => simp at h
        | varr xs => simp at h
        | vjson c => simp at h
        | verror m => simp at h
    · have hvf : validateNode (.vobj fs) = false := by simpa using hval
      rw [quietTree, if_neg (by simp [hvf])] at h
      simp [walkV, hvf, walkF_post cat locale tz fs h]

/-- Elementwise version of `walkV_post`. -/
theorem walkL_post (cat : Catalog) (locale : String) (tz : Option String) :
    ∀ xs : ValueList, quietTreeL cat locale tz xs = true →
      (walkL cat locale tz xs).post = xs
  | .nil, _ => rfl
  | .cons h t, hq => by
    rw [quietTreeL] at hq
    rcases Bool.and_eq_true_iff.mp hq with ⟨h1, h2⟩
    simp [walkL, walkV_post cat locale tz h h1, walkL_post cat locale tz t h2]

/-- Fieldwise version of `walkV_post`. -/
theorem walkF_post (cat : Catalog) (locale : String) (tz : Option String) :
    ∀ fs : FieldList, quietTreeF cat locale tz fs = true →
      (walkF cat locale tz fs).post = fs
  | .nil, _ => rfl
  | .cons k v t, hq => by
    rw [quietTreeF] at hq
    rcases Bool.and_eq_true_iff.mp hq with ⟨h1, h2⟩
    simp [walkF, walkV_post cat locale tz v h1, walkF_post cat locale tz t h2]
end

/-- C2 counterexample.  Translating a node that carries both a numeric
`quantity` and a `placeholders` mapping writes `count` into the input's
own placeholders object: the input is not deep-equal to its pre-call
state, refuting the claim at this concrete input. -/
theorem translate_mutation_counterexample :
    translatePost [] "en" none c2ex =
      mkNode (.cons "key" (.vstr "plural-dog") (.cons "quantity" (.vnum 2)
        (.cons "placeholders"
          (.vobj (.cons "dog" (.vstr "Rex") (.cons "count" (.vnum 2) .nil)))
          .nil)))
    ∧ translatePost [] "en" none c2ex ≠ c2ex := by
  constructor
  · decide
  · decide

/-- C2 amended.  `translate` leaves the input argument deep-equal to
its pre-call state provided every valid translation node in it is
quiet: it does not combine a numeric `quantity` with its own
`placeholders` mapping (which would receive a `count` write), and its
resolution raises no formatter error (which would add an `error`
property to the inner object).  All other traversal copies containers
before rewriting them. -/
theorem translate_no_mutation_amended (cat : Catalog) (locale : String)
    (tz : Option String) (v : Value)
    (h : quietTree cat locale tz v = true) :
    translatePost cat locale tz v = v := by
  simp [translatePost, walkV_post cat locale tz v h]

/-- Witness for the amended C2 at a concrete quantity-free node. -/
theorem translate_no_mutation_amended_witness :
    quietTree [] "en" none (mkNode (.cons "key" (.vstr "howdy") .nil)) = true
    ∧ translatePost [] "en" none (mkNode (.cons "key" (.vstr "howdy") .nil)) =
      mkNode (.cons "key" (.vstr "howdy") .nil) :=
  ⟨by decide,
   translate_no_mutation_amended [] "en" none _ (by decide)⟩

/-- Reading back an updated heap slot: in bounds the new config, out of
bounds the empty default (a JS reference is always live, so real
executions are the in-bounds case). -/
theorem configHeap_getD_set :
    ∀ (h : ConfigHeap) (r : Nat) (v : I18nConfig),
      (h.set r v).getD r {} = if r < h.length then v else {}
  | [], r, v => by cases r <;> simp [List.getD]
  | a :: t, 0, v => by simp [List.getD]
  | a :: t, r + 1, v => by
    simp only [List.set, List.length_cons]
    rw [show List.getD (a :: t.set r v) (r + 1) {} = (t.set r v).getD r {} by
      simp [List.getD]]
    rw [configHeap_getD_set t r v]
    simp [Nat.succ_lt_succ_iff]

/-- C3 counterexample.  A per-request clone shares its `_config` object
with the engine it came from (`new Engine(this._config)` keeps the
reference), so setting the clone's timezone — exactly what `translate`
does for each request — changes the shared engine's observable
timezone: before the write the engine reports no timezone, afterwards
it reports `Europe/Paris`, refuting the claim at this concrete
state. -/
theorem engine_clone_isolation_counterexample :
    engineGetTimezone [{ locale := some "en", timezone := none }]
      { configRef := 0, language := some "en", loggerRef := 0 } = none
    ∧ engineGetTimezone
      (engineSetTimezone [{ locale := some "en", timezone := none }]
        (engineClone
          { configRef := 0, language := some "en", loggerRef := 0 })
        (some "Europe/Paris")).1
      { configRef := 0, language := some "en", loggerRef := 0 } =
      some "Europe/Paris" := by
  constructor
  · rfl
  · rfl

/-- C3 amended.  Setting the clone's locale writes the clone's own
i18next `language` and only the `locale` slot of the shared config, so
the shared engine's observable locale (its own instance language),
timezone and logger are unchanged; setting the clone's logger touches
the clone alone; but setting the clone's timezone writes the shared
config object, so the shared engine's timezone getter observes the
clone's value. -/
theorem engine_clone_isolation_amended (h : ConfigHeap) (e : EngineObj)
    (l : String) (tz : Option String) (lg : Nat)
    (hr : e.configRef < h.length) :
    engineGetLocale ((engineSetLocale h (engineClone e) l).2) = some l
    ∧ engineGetLocale e = e.language
    ∧ engineGetTimezone (engineSetLocale h (engineClone e) l).1 e =
      engineGetTimezone h e
    ∧ engineGetLogger (engineSetLogger (engineClone e) lg) = lg
    ∧ engineGetLogger e = e.loggerRef
    ∧ engineGetTimezone (engineSetTimezone h (engineClone e) tz).1 e = tz := by
  refine ⟨rfl, rfl, ?_, rfl, rfl, ?_⟩
  · unfold engineGetTimezone engineSetLocale engineClone
    rw [configHeap_getD_set, if_pos hr]
  · unfold engineGetTimezone engineSetTimezone engineClone
    rw [configHeap_getD_set, if_pos hr]

/-- Witness for the amended C3 at a concrete one-config heap. -/
theorem engine_clone_isolation_amended_witness :
    (0 : Nat) < ([{ locale := some "en", timezone := none }] :
      ConfigHeap).length
    ∧ engineGetTimezone
      (engineSetLocale [{ locale := some "en", timezone := none }]
        (engineClone
          { configRef := 0, language := some "en", loggerRef := 0 })
        "fr").1
      { configRef := 0, language := some "en", loggerRef := 0 } =
      engineGetTimezone [{ locale := some "en", timezone := none }]
      { configRef := 0, language := some "en", loggerRef := 0 } :=
  ⟨by decide,
   (engine_clone_isolation_amended
     [{ locale := some "en", timezone := none }]
     { configRef := 0, language := some "en", loggerRef := 0 }
     "fr" (some "Europe/Paris") 1 (by decide)).2.2.1⟩

/-- Boolean all-keys check against its quantified reading. -/
theorem allKeysEq_iff :
    ∀ (fs : FieldList) (key : String),
      allKeysEq fs key = true ↔ ∀ k ∈ fieldKeys fs, k = key
  | .nil, key => by simp [allKeysEq, fieldKeys]
  | .cons k' v t, key => by
    rw [allKeysEq]
    rw [Bool.and_eq_true]
    rw [allKeysEq_iff t key]
    simp [fieldKeys]

/-- Number test against its existential reading. -/
theorem isNumberV_iff (q : Value) : isNumberV q = true ↔ ∃ n, q = .vnum n := by
  cases q <;> simp [isNumberV]

/-- String test against its existential reading. -/
theorem isStringV_iff (f : Value) : isStringV f = true ↔ ∃ s, f = .vstr s := by
  cases f <;> simp [isStringV]

/-- C4 counterexample.  The validator accepts a node with an extra
property inside the `@translate` object and a node whose `key` is the
empty string; the validator of the claim rejects both, so the claimed
"if and only if" characterization fails at these concrete inputs. -/
theorem validator_claim_counterexample :
    validateNode c4ex = true ∧ validatorClaimed c4ex = false
    ∧ validateNode c4exEmptyKey = true
    ∧ validatorClaimed c4exEmptyKey = false := by
  refine ⟨by decide, by decide, by decide, by decide⟩

/-- C4 amended.  The node validator returns true for `v` if and only if
`v` is a mapping whose every top-level key is `@translate`, that key
holds a mapping carrying a `key` property that is a string (empty
allowed), whose `quantity`, if present, is a number, whose
`placeholders`, if present, is a mapping, and whose `fallback`, if
present, is a string — extra properties inside the `@translate` object
are allowed and do NOT invalidate the node (the schema restricts
additional properties at the outer level only). -/
theorem validator_characterization_amended (v : Value) :
    validateNode v = true ↔ validatorAmendedSpec v := by
  cases v with
  | vobj fs =>
    rw [validateNode, Bool.and_eq_true]
    constructor
    · rintro ⟨hall, hmatch⟩
      rcases hlk : lookupField fs translateSymbol with _ | inner
      · rw [hlk] at hmatch; simp at hmatch
      · rw [hlk] at hmatch
        have hm2 : validTranslateInner inner = true := by simpa using hmatch
        cases inner with
        | vobj ifs =>
          rw [validTranslateInner.eq_def] at hm2
          simp only [Bool.and_eq_true] at hm2
          obtain ⟨⟨⟨hk, hq⟩, hp⟩, hf⟩ := hm2
          refine ⟨fs, rfl, (allKeysEq_iff fs translateSymbol).mp hall,
            ifs, hlk, ?_, ?_, ?_, ?_⟩
          · rcases hke : lookupField ifs "key" with _ | k
            · rw [hke] at hk; simp at hk
            · rw [hke] at hk
              have hk2 : isStringV k = true := by simpa using hk
              rcases (isStringV_iff k).mp hk2 with ⟨s, rfl⟩
              exact ⟨s, rfl⟩
          · intro q hq'
            rw [hq'] at hq
            have hq2 : isNumberV q = true := by simpa using hq
            exact (isNumberV_iff q).mp hq2
          · intro p hp'
            rw [hp'] at hp
            simpa using hp
          · intro f hf'
            rw [hf'] at hf
            have hf2 : isStringV f = true := by simpa using hf
            rcases (isStringV_iff f).mp hf2 with ⟨s, rfl⟩
            exact ⟨s, rfl⟩
        | vnull => rw [validTranslateInner.eq_def] at hm2; simp at hm2
        | vundef => rw [validTranslateInner.eq_def] at hm2; simp at hm2
        | vbool b => rw [validTranslateInner.eq_def] at hm2; simp at hm2
        | vnum n => rw [validTranslateInner.eq_def] at hm2; simp at hm2
        | vstr s => rw [validTranslateInner.eq_def] at hm2; simp at hm2
        | varr xs => rw [validTranslateInner.eq_def] at hm2; simp at hm2
        | vjson c => rw [validTranslateInner.eq_def] at hm2; simp at hm2
        | verror m => rw [validTranslateInner.eq_def] at hm2; simp at hm2
    · rintro ⟨fs', heq, hall, inner, hlk, ⟨s, hkey⟩, hq, hp, hf⟩
      cases heq
      refine ⟨(allKeysEq_iff fs translateSymbol).mpr hall, ?_⟩
      rw [hlk]
      show validTranslateInner (.vobj inner) = true
      rw [validTranslateInner.eq_def]
      simp only [Bool.and_eq_true]
      refine ⟨⟨⟨?_, ?_⟩, ?_⟩, ?_⟩
      · rw [hkey]; simp [isStringV]
      · rcases hq' : lookupField inner "quantity" with _ | q
        · simp
        · rcases hq q hq' with ⟨n, rfl⟩; simp [isNumberV]
      · rcases hp' : lookupField inner "placeholders" with _ | p
        · simp
        · simpa using hp p hp'
      · rcases hf' : lookupField inner "fallback" with _ | f
        · simp
        · rcases hf f hf' with ⟨s', rfl⟩; simp [isStringV]
  | vnull => simp [validateNode, validatorAmendedSpec]
  | vundef => simp [validateNode, validatorAmendedSpec]
  | vbool b => simp [validateNode, validatorAmendedSpec]
  | vnum n => simp [validateNode, validatorAmendedSpec]
  | vstr s => simp [validateNode, validatorAmendedSpec]
  | varr xs => simp [validateNode, validatorAmendedSpec]
  | vjson c => simp [validateNode, validatorAmendedSpec]
  | verror m => simp [validateNode, validatorAmendedSpec]

/-- Witness for the amended C4: the extra-inner-key node satisfies the
amended characterization via the equivalence. -/
theorem validator_characterization_amended_witness :
    validatorAmendedSpec c4ex :=
  (validator_characterization_amended c4ex).mp (by decide)

/-- C5.  For a node whose key resolves in no consulted locale (the bare
key exists nowhere and plural-aware resolution misses everywhere): with
no `fallback` defined, `Engine.t` returns the key string itself,
raising no error and logging nothing; with a (truthy) `fallback` string
defined, the fallback is interpolated as a template under the node's
placeholders and its interpolation result is returned instead. -/
theorem engine_missing_key (cat : Catalog) (locale : String)
    (tz : Option String) (inner : FieldList) (key : String)
    (hkey : lookupField inner "key" = some (.vstr key))
    (hbare : existsBare cat locale key = false)
    (hres : resolveTemplate cat (consultedLocales locale) key
      (effCount (effPlaceholders inner)) = none) :
    (lookupField inner "fallback" = none →
      (engineT cat locale tz inner).res = .vstr key
      ∧ (engineT cat locale tz inner).post = innerAfterCount inner
      ∧ (engineT cat locale tz inner).logs = [])
    ∧ (∀ fb s, lookupField inner "fallback" = some (.vstr fb) → fb ≠ "" →
      interpolate fb (effPlaceholders inner) locale tz = .ok s →
      (engineT cat locale tz inner).res = .vstr s
      ∧ (engineT cat locale tz inner).logs = []) := by
  have hks : innerKeyStr inner = key := by rw [innerKeyStr, hkey]
  constructor
  · intro hfb
    have hatt : engineAttempt cat locale tz inner = .ok key := by
      simp only [engineAttempt, hfb, hks, resolveOrKey, hres]
    simp [engineT, hatt]
  · intro fb s hfb hne hint
    have hatt : engineAttempt cat locale tz inner =
        interpolate fb (effPlaceholders inner) locale tz := by
      simp only [engineAttempt, hfb, hks]
      rw [if_pos ⟨hne, hbare⟩]
    rw [hint] at hatt
    simp [engineT, hatt]

/-- Witness for C5 at a concrete empty catalog and fallback node. -/
theorem engine_missing_key_witness :
    lookupField (.cons "key" (.vstr "hello-alice")
        (.cons "fallback" (.vstr "Salut \x7b\x7balice\x7d\x7d")
          (.cons "placeholders"
            (.vobj (.cons "alice" (.vstr "Alice") .nil)) .nil))) "key" =
      some (.vstr "hello-alice")
    ∧ (engineT [] "fr-FR" none (.cons "key" (.vstr "hello-alice")
        (.cons "fallback" (.vstr "Salut \x7b\x7balice\x7d\x7d")
          (.cons "placeholders"
            (.vobj (.cons "alice" (.vstr "Alice") .nil)) .nil)))).res =
      .vstr "Salut Alice" :=
  ⟨by decide,
   ((engine_missing_key [] "fr-FR" none _ "hello-alice" (by decide) (by decide)
      (by decide)).2 "Salut \x7b\x7balice\x7d\x7d" "Salut Alice" (by decide)
      (by decide) (by rfl)).1⟩

/-- C6 counterexample.  At the currency node with a nil currency code,
`translate` does log the error and does return a mapping carrying the
exception whose message includes "Currency code is required" — but the
returned mapping is the node's INNER `@translate` content (key,
fallback, placeholders plus `error`), not the original node: it has no
`@translate` key at all, refuting the claimed output shape at this
concrete input. -/
theorem formatter_error_counterexample :
    translateF [] "fr-FR" none c6ex = .vobj c6post
    ∧ lookupField c6post translateSymbol = none
    ∧ lookupField c6post "error" = some (.verror currencyRequiredMsg)
    ∧ List.isPrefixOf "Currency code is required".data
        currencyRequiredMsg.data = true
    ∧ translateLogs [] "fr-FR" none c6ex =
        [engineErrLog currencyRequiredMsg] := by
  exact ⟨by decide, by decide, by decide, by decide, by decide⟩

/-- C6 amended.  When interpolating a valid node raises (for example a
currency placeholder without a currency code, whose message includes
"Currency code is required"), the engine catches the exception, logs it
on `logger.error`, and the output at that node's position is the node's
inner `@translate` content — without the outer `@translate` wrapper —
augmented with an `error` property carrying the exception; walking is
elementwise, so every sibling node's translation still completes
independently. -/
theorem formatter_error_amended (cat : Catalog) (locale : String)
    (tz : Option String) (fields inner : FieldList) (e : String)
    (hval : validateNode (.vobj fields) = true)
    (hlk : lookupField fields translateSymbol = some (.vobj inner))
    (herr : engineAttempt cat locale tz inner = .error e) :
    (walkV cat locale tz (.vobj fields)).res =
      .vobj (setField (innerAfterCount inner) "error" (.verror e))
    ∧ (walkV cat locale tz (.vobj fields)).logs = [engineErrLog e]
    ∧ (∀ (h : Value) (t : ValueList), walkL cat locale tz (.cons h t) =
      ⟨.cons (walkV cat locale tz h).res (walkL cat locale tz t).res,
       .cons (walkV cat locale tz h).post (walkL cat locale tz t).post,
       (walkV cat locale tz h).keys ++ (walkL cat locale tz t).keys,
       (walkV cat locale tz h).logs ++ (walkL cat locale tz t).logs⟩) := by
  refine ⟨?_, ?_, fun h t => by simp [walkL]⟩
  · simp [walkV, hval, hlk, engineT, herr]
  · simp [walkV, hval, hlk, engineT, herr]

/-- Witness for the amended C6 at the concrete currency node. -/
theorem formatter_error_amended_witness :
    engineAttempt [] "fr-FR" none c6inner = .error currencyRequiredMsg
    ∧ (walkV [] "fr-FR" none c6ex).res =
      .vobj (setField (innerAfterCount c6inner) "error"
        (.verror currencyRequiredMsg)) :=
  ⟨by rfl,
   (formatter_error_amended [] "fr-FR" none
     (.cons translateSymbol (.vobj c6inner) .nil) c6inner
     currencyRequiredMsg (by decide) (by decide) (by rfl)).1⟩

/-- C7 counterexample.  With the remote capability absent, `Loader.load`
returns at once (`if (!this.redis) return translations` with an empty
`translations`): the cache is never consulted and no warning is logged,
even though the cache holds a template for the requested key — the
returned mapping is not the cache-derived result the claim promises. -/
theorem loader_remote_absent_counterexample :
    (loaderLoad none cacheAB ["en"] ["a"]).translations = []
    ∧ (loaderLoad none cacheAB ["en"] ["a"]).logs = []
    ∧ loadFromCache cacheAB ["en"] ["a"] = ([("en", [("a", "TA")])], [])
    ∧ ([] : TransMap) ≠ [("en", [("a", "TA")])] := by
  exact ⟨by decide, by decide, by decide, by decide⟩

/-- C7 amended.  `Loader.load` never propagates a remote failure: with
no remote capability it returns an empty mapping immediately (no cache
consultation, no warning); with a remote and no cache misses it returns
the cache-assembled mapping without any remote call; and when the
batched remote request fails it logs the warning on the configured
logger and returns the mapping assembled from the cache. -/
theorem loader_degradation_amended :
    (∀ (cache : LruCache) (locales keys : List String),
      loaderLoad none cache locales keys = ⟨[], cache, []⟩)
    ∧ (∀ (r : RemoteFn) (cache : LruCache) (locales keys : List String),
      (loadFromCache cache locales keys).2 = [] →
      loaderLoad (some r) cache locales keys =
        ⟨(loadFromCache cache locales keys).1, cache, []⟩)
    ∧ (∀ (r : RemoteFn) (cache : LruCache) (locales keys : List String)
      (e : String),
      (loadFromCache cache locales keys).2 ≠ [] →
      r ((loadFromCache cache locales keys).2.map (fun k => (k, locales))) =
        .error e →
      loaderLoad (some r) cache locales keys =
        ⟨(loadFromCache cache locales keys).1, cache, [loaderWarnMsg]⟩) := by
  refine ⟨fun cache locales keys => rfl, ?_, ?_⟩
  · intro r cache locales keys h
    simp [loaderLoad, h]
  · intro r cache locales keys e h1 h2
    simp [loaderLoad, h1, h2]

/-- Witness for the amended C7: a failing remote on a cache with one
hit and one miss yields the warning and the cache-derived mapping. -/
theorem loader_degradation_amended_witness :
    (loadFromCache cacheAB ["en"] ["a", "b"]).2 ≠ []
    ∧ (loadFromCache cacheAB ["en"] ["a", "b"]).1 = [("en", [("a", "TA")])]
    ∧ loaderLoad (some remoteDown) cacheAB ["en"] ["a", "b"] =
      ⟨(loadFromCache cacheAB ["en"] ["a", "b"]).1, cacheAB,
        [loaderWarnMsg]⟩ :=
  ⟨by decide, by decide,
   loader_degradation_amended.2.2 remoteDown cacheAB ["en"] ["a", "b"]
     "ECONNREFUSED" (by decide) (by rfl)⟩

/-- C8.  The batch is issued for the `unknown` (cache-missed) keys, but
the reformatting loop zips the results with ALL requested `keys`: with
`a` a cache hit and `b` the only miss, the template fetched for `b`
(`TB`) is attributed to `a` — overwriting `a`'s cached and returned
template — while `b` receives nothing.  This evaluates the embedded
`Loader.load` at that failing input, contradicting the claim that each
fetched template lands under exactly the unknown key it was fetched
for. -/
theorem loader_zip_misattribution :
    loadFromCache cacheAB ["en"] ["a", "b"] = ([("en", [("a", "TA")])], ["b"])
    ∧ remoteB [("b", ["en"])] = .ok [[some "TB"]]
    ∧ (loaderLoad (some remoteB) cacheAB ["en"] ["a", "b"]).translations =
      [("en", [("a", "TB")])]
    ∧ (loaderLoad (some remoteB) cacheAB ["en"] ["a", "b"]).cache =
      [("a", [("en", "TB")])] := by
  exact ⟨by decide, by rfl, by decide, by decide⟩

/-- C9.  Cache writes are merge-semantic: setting `{en: t1}` then
`{fr: t2}` for one key leaves both locales readable, setting the same
locale twice overwrites it; a `Get` with a non-empty locale filter
returns exactly the entries of the requested locales, and an empty
filter returns everything known for the key. -/
theorem cache_merge_and_filter :
    (∀ (k t1 t2 : String),
      assocGet (getItemFromCache (setItemToCache (setItemToCache [] k
          [("en", t1)]) k [("fr", t2)]) k []) "en" = some t1
      ∧ assocGet (getItemFromCache (setItemToCache (setItemToCache [] k
          [("en", t1)]) k [("fr", t2)]) k []) "fr" = some t2)
    ∧ (∀ (k t1 t2 : String),
      assocGet (getItemFromCache (setItemToCache (setItemToCache [] k
          [("en", t1)]) k [("en", t2)]) k []) "en" = some t2)
    ∧ (∀ (c : LruCache) (k : String) (locales : List String)
      (l tpl : String), locales ≠ [] →
      ((l, tpl) ∈ getItemFromCache c k locales ↔
        l ∈ locales ∧ assocGet (getItemFromCache c k []) l = some tpl))
    ∧ (∀ (c : LruCache) (k : String),
      getItemFromCache c k [] =
        ((c.find? (fun p => p.1 = k)).map (fun p => p.2)).getD []) := by
  refine ⟨?_, ?_, ?_, ?_⟩
  · intro k t1 t2
    constructor <;>
      simp [setItemToCache, getItemFromCache, objAssign, assocSet, assocGet,
        List.find?]
  · intro k t1 t2
    simp [setItemToCache, getItemFromCache, objAssign, assocSet, assocGet,
      List.find?]
  · intro c k locales l tpl h
    have hval : getItemFromCache c k [] =
        ((c.find? (fun p => p.1 = k)).map (fun p => p.2)).getD [] := by
      rw [getItemFromCache]
      simp
    rw [getItemFromCache, if_neg h, hval]
    rw [List.mem_filterMap]
    constructor
    · rintro ⟨a, ha, hmap⟩
      rcases hga : assocGet
          (((c.find? (fun p => p.1 = k)).map (fun p => p.2)).getD []) a with
          _ | t'
      · rw [hga] at hmap; simp at hmap
      · rw [hga] at hmap
        simp only [Option.map_some'] at hmap
        have h1 : a = l := congrArg Prod.fst (Option.some.inj hmap)
        have h2 : t' = tpl := congrArg Prod.snd (Option.some.inj hmap)
        subst h1
        subst h2
        exact ⟨ha, hga⟩
    · rintro ⟨hl, hget⟩
      exact ⟨l, hl, by rw [hget]; rfl⟩
  · intro c k
    rw [getItemFromCache]
    simp

/-- Witness for C9's filter clause at a concrete one-entry cache. -/
theorem cache_merge_and_filter_witness :
    (["en"] : List String) ≠ []
    ∧ ("en", "T") ∈ getItemFromCache [("k", [("en", "T")])] "k" ["en"] :=
  ⟨by decide,
   (cache_merge_and_filter.2.2.1 [("k", [("en", "T")])] "k" ["en"] "en" "T"
     (by decide)).mpr ⟨by decide, by decide⟩⟩

/-- C10 counterexample.  Resolution can REVEAL a valid translation node
in the output: `c10ex` is invalid as a whole (its `key` is not a
string), so the walker recurses into it and resolves the nested node,
producing exactly `{"@translate": {"key": "x"}}` — a valid node — so a
second `translate` pass resolves further and idempotence fails at this
concrete input. -/
theorem translate_idempotence_counterexample :
    translateF [] "en" none c10ex = mkNode (.cons "key" (.vstr "x") .nil)
    ∧ translateF [] "en" none (translateF [] "en" none c10ex) = .vstr "x"
    ∧ translateF [] "en" none (translateF [] "en" none c10ex) ≠
      translateF [] "en" none c10ex := by
  exact ⟨by decide, by decide, by decide⟩

/-- C10 amended.  `translate` is idempotent on every output that
contains no valid translation node (and no serialization-hook object):
resolved strings and untouched scalars are never re-recognized as
nodes, so a second pass is the identity there.  (Outputs CAN still
contain valid nodes — revealed by resolving a nested node inside an
invalid one, or preserved inside a formatter-error marker's
placeholders — and on those a second pass translates further.) -/
theorem translate_idempotent_amended (cat : Catalog) (locale : String)
    (tz : Option String) (v : Value)
    (hp : plainOnly (translateF cat locale tz v) = true)
    (hn : noTransNode (translateF cat locale tz v) = true) :
    translateF cat locale tz (translateF cat locale tz v) =
      translateF cat locale tz v := by
  have h := walkV_id cat locale tz (translateF cat locale tz v) hp hn
  simp only [translateF] at h ⊢
  rw [h]

/-- Witness for the amended C10 at a concrete scalar input. -/
theorem translate_idempotent_amended_witness :
    plainOnly (translateF [] "en" none (.vstr "a")) = true
    ∧ noTransNode (translateF [] "en" none (.vstr "a")) = true
    ∧ translateF [] "en" none (translateF [] "en" none (.vstr "a")) =
      translateF [] "en" none (.vstr "a") :=
  ⟨by decide, by decide,
   translate_idempotent_amended [] "en" none (.vstr "a") (by decide)
     (by decide)⟩
